import Mathlib

/-!
# XRT profiling: AIE trace offload boundary search and AIE debug register polling

A shallow embedding of

* `AIETraceOffload::searchWrittenBytes`
  (`xdp/profile/device/aie_trace/client/aie_trace_offload_client.cpp`), and
* `AieDebugPlugin::updateAIEDevice`, `parseMetrics`, `getSettingsVector` and `endPoll`
  (`xdp/profile/plugin/aie_debug/aie_debug_plugin.cpp`),

together with the properties established about them.

Machine integers are natural numbers or integers; conversions between the
C++ integer types are spelled out (`toInt64`, `toUInt64`, `% 2 ^ 64`).
-/

namespace XRT

/-! ## Boundary search (`aie_trace_offload_client.cpp`) -/

/-- Modelled from the spec: the constant `TRACE_PACKET_SIZE` comes from a header
that is not among the sources; the spec fixes the word width at 8 bytes, which
is also the size of the `uint64_t` words the search reads. -/
def TRACE_PACKET_SIZE : Nat := 8

/-- The conversion `static_cast<int64_t>(x)` of a `uint64_t` (two's complement). -/
def toInt64 (n : Nat) : Int :=
  if n % 2 ^ 64 < 2 ^ 63 then ((n % 2 ^ 64 : Nat) : Int) else ((n % 2 ^ 64 : Nat) : Int) - 2 ^ 64

/-- The implicit conversion of an `int64_t` to `uint64_t` (as in `boundary = mid`). -/
def toUInt64 (i : Int) : Nat := (i % 2 ^ 64).toNat

/-- The `while (low <= high)` loop of `searchWrittenBytes`.  `words` is the
buffer seen as `uint64_t` words.  Besides `boundary`, the loop state carries the
list of word indices read so far (a ghost variable, appended at every probe
`words[mid]`).  `low`, `high` and `mid` are `int64_t`; they stay between `-1`
and the word count, so their arithmetic is exact. -/
def searchLoop (words : Nat → Nat) (low high : Int) (boundary : Nat) (probed : List Nat) :
    Nat × List Nat :=
  if low ≤ high then
    let mid := low + Int.tdiv (high - low) 2
    if words mid.toNat = 0 then
      searchLoop words low (mid - 1) (toUInt64 mid) (probed ++ [mid.toNat])
    else
      searchLoop words (mid + 1) high boundary (probed ++ [mid.toNat])
  else
    (boundary, probed)
termination_by (high - low + 1).toNat
decreasing_by
  all_goals simp_wf
  all_goals
    have h2 : Int.tdiv (high - low) 2 = (high - low) / 2 :=
      Int.tdiv_eq_ediv (by omega) (by omega)
    omega

/-- The word count `bytes / TRACE_PACKET_SIZE` of `searchWrittenBytes`. -/
def wordCount (bytes : Nat) : Nat := bytes / TRACE_PACKET_SIZE

/-- The state in which `searchWrittenBytes` leaves its loop: the final
`boundary` and the indices of the words it has read. -/
def searchRun (words : Nat → Nat) (bytes : Nat) : Nat × List Nat :=
  let wordcount := wordCount bytes
  let low : Int := 0
  let high : Int := toInt64 wordcount - 1
  let boundary : Nat := wordcount
  searchLoop words low high boundary []

/-- `AIETraceOffload::searchWrittenBytes(buf, bytes)`: the value `written`. -/
def searchWrittenBytes (words : Nat → Nat) (bytes : Nat) : Nat :=
  let boundary := (searchRun words bytes).1
  boundary * TRACE_PACKET_SIZE % 2 ^ 64

/-- The indices of the words `searchWrittenBytes` reads, in order. -/
def searchProbes (words : Nat → Nat) (bytes : Nat) : List Nat :=
  (searchRun words bytes).2

/-! ## AIE debug plugin (`aie_debug_plugin.cpp`) -/

/-- The closed set of module types, in the order of the array `moduleTypes`. -/
inductive module_type where
  | core
  | dma
  | shim
  | mem_tile
deriving DecidableEq, Repr

/-- The array `moduleTypes[NUM_MODULES]` of `parseMetrics` and `updateAIEDevice`. -/
def moduleTypes : List module_type :=
  [module_type.core, module_type.dma, module_type.shim, module_type.mem_tile]

/-- The two fields of `tile_type` that `updateAIEDevice` reads. -/
structure tile_type where
  col : Nat
  row : Nat
deriving DecidableEq, Repr

/-! ### Configuration parsing: `getSettingsVector` and `parseMetrics` -/

/-- The call `boost::replace_all(settingsString, " ", "")`: every space character is
removed. -/
def removeSpaces (s : List Char) : List Char :=
  s.filter (fun c => c ≠ ' ')

/-- The call `boost::split(settingsVector, settingsString, boost::is_any_of(","))`
(no token compression): the pieces between commas, empty pieces included; an
input without a comma is one piece. -/
def splitComma : List Char → List (List Char)
  | [] => [[]]
  | c :: cs =>
    if c = ',' then [] :: splitComma cs
    else
      match splitComma cs with
      | [] => [[c]]
      | t :: ts => (c :: t) :: ts

/-- `AieDebugPlugin::getSettingsVector`. -/
def getSettingsVector (settingsString : List Char) : List (List Char) :=
  if settingsString.isEmpty then []
  else splitComma (removeSpaces settingsString)

/-- The value of a base-16 digit, `none` for every other character. -/
def hexDigit (c : Char) : Option Nat :=
  let n := c.toNat
  if 48 ≤ n ∧ n ≤ 57 then some (n - 48)
  else if 97 ≤ n ∧ n ≤ 102 then some (n - 87)
  else if 65 ≤ n ∧ n ≤ 70 then some (n - 55)
  else none

/-- The characters `isspace` accepts in the "C" locale. -/
def isSpaceChar (c : Char) : Bool :=
  c.toNat = 32 || (9 ≤ c.toNat && c.toNat ≤ 13)

/-- The optional sign of the subject sequence of `strtoul`. -/
def stripSign : List Char → Bool × List Char
  | [] => (false, [])
  | c :: r =>
    if c = '-' then (true, r)
    else if c = '+' then (false, r)
    else (false, c :: r)

/-- The optional `0x` / `0X` of the subject sequence of `strtoul` in base 16: it
belongs to the subject sequence only when a hexadecimal digit follows it. -/
def skipHexMarker : List Char → List Char
  | c0 :: x :: d :: r =>
    if c0 = '0' ∧ (x = 'x' ∨ x = 'X') ∧ (hexDigit d).isSome then d :: r
    else c0 :: x :: d :: r
  | s => s

/-- The value of a run of hexadecimal digits, most significant digit first. -/
def hexValue (digits : List Char) : Nat :=
  digits.foldl (fun acc c => 16 * acc + (hexDigit c).getD 0) 0

/-- The largest `unsigned long` (LP64). -/
def ULONG_MAX : Nat := 2 ^ 64 - 1

/-- The library call `std::stoul(s, nullptr, 16)`, after the C standard's
`strtoul`: leading white space is skipped, then an optional sign, an optional
`0x`, and the longest run of hexadecimal digits; what follows the run is
ignored.  `none` stands for the two exceptions: `invalid_argument` (no digit)
and `out_of_range` (the digits exceed `ULONG_MAX`).  A minus sign negates the
value in `unsigned long`. -/
def stoul16 (s : List Char) : Option Nat :=
  let signed := stripSign (s.dropWhile isSpaceChar)
  let body := skipHexMarker signed.2
  let digits := body.takeWhile (fun c => (hexDigit c).isSome)
  if digits.isEmpty then none
  else if ULONG_MAX < hexValue digits then none
  else if signed.1 then some ((2 ^ 64 - hexValue digits) % 2 ^ 64)
  else some (hexValue digits)

/-- The loop `for (auto& s : metricsSettings)` of `parseMetrics` for one module:
each token goes through `stoul`; a value is pushed to the back of the
module's vector, an exception only sends a warning. -/
def parseLoop (metricsSettings : List (List Char)) (regs : List Nat) : List Nat :=
  metricsSettings.foldl
    (fun regs s =>
      match stoul16 s with
      | some val => regs ++ [val]
      | none => regs)
    regs

/-- The register list `parseMetrics` builds for one module type from that
module's configuration string. -/
def parseRegisters (config : List Char) : List Nat :=
  parseLoop (getSettingsVector config) []

/-- `AieDebugPlugin::parseMetrics`: the map `regValues`, given the configuration
string of each module type. -/
def parseMetrics (metricsConfig : module_type → List Char) : module_type → List Nat :=
  fun type => parseRegisters (metricsConfig type)

/-! ### Building the op: `updateAIEDevice` -/

/-- The address stored in a `profile_data_t` by `updateAIEDevice`:
`Regs[i] + (tile.col << 25) + (tile.row << 20)`, a `uint64_t` sum (the two
shifts are done in `int`, where they do not overflow for columns below 64 and
rows below 2048). -/
def packAddress (reg : Nat) (tile : tile_type) : Nat :=
  (reg + (tile.col <<< 25) + (tile.row <<< 20)) % 2 ^ 64

/-- The loops `for (auto &tile : tiles) for (i < Regs.size())` of `updateAIEDevice`
for one module: the state is `(op_profile_data, counterId)`. -/
def emitModule (tiles : List tile_type) (Regs : List Nat) (st : List Nat × Nat) :
    List Nat × Nat :=
  tiles.foldl
    (fun st tile =>
      Regs.foldl (fun st reg => (st.1 ++ [packAddress reg tile], st.2 + 1)) st)
    st

/-- The struct `aie_profile_op_t` as `updateAIEDevice` fills it: `count` and the
`perf_address` of every entry of `profile_data`. -/
structure aie_profile_op_t where
  count : Nat
  profile_data : List Nat
deriving DecidableEq, Repr

/-- The part of `updateAIEDevice` from the module loop to the filling of `op`.
`tilesOf` stands for the tile queries on the metadata (`getInterfaceTiles` for
`shim`, `getTiles` otherwise). -/
def updateAIEDevice (tilesOf : module_type → List tile_type)
    (regValues : module_type → List Nat) : aie_profile_op_t :=
  let st := moduleTypes.foldl
    (fun st type => emitModule (tilesOf type) (regValues type) st) ([], 0)
  { count := st.2, profile_data := st.1 }

/-! ### Decoding the results: `endPoll` -/

/-- The constant `size_4K` of `endPoll`. -/
def size_4K : Nat := 0x1000

/-- The constant `offset_3K` of `endPoll`. -/
def offset_3K : Nat := 0x0C00

/-- One line logged by the decode loop of `endPoll`. -/
structure DecodedRecord where
  col : Nat
  row : Nat
  reg : Nat
  value : Nat
deriving DecidableEq, Repr

/-- The read `output[i]`, where `output` is the `uint32_t` view of the result
buffer from byte `offset_3K` on.  The buffer is the list of its bytes; the read
is `none` when one of its four bytes lies outside the buffer. -/
def readOutput (result_bo_map : List Nat) (i : Nat) : Option Nat :=
  let off := offset_3K + 4 * i
  match result_bo_map[off]?, result_bo_map[off + 1]?, result_bo_map[off + 2]?,
      result_bo_map[off + 3]? with
  | some b0, some b1, some b2, some b3 => some (b0 + 2 ^ 8 * b1 + 2 ^ 16 * b2 + 2 ^ 24 * b3)
  | _, _, _, _ => none

/-- The column `(perf_address >> 25) & 0x1F` read back by `endPoll`. -/
def unpackCol (perf_address : Nat) : Nat := (perf_address >>> 25) &&& 0x1F

/-- The row `(perf_address >> 20) & 0x1F` read back by `endPoll`. -/
def unpackRow (perf_address : Nat) : Nat := (perf_address >>> 20) &&& 0x1F

/-- The register `perf_address & 0xFFFFF` read back by `endPoll`. -/
def unpackReg (perf_address : Nat) : Nat := perf_address &&& 0xFFFFF

/-- The body of the decode loop of `endPoll` at index `i`: it reads
`op->profile_data[i]` and `output[i]`. -/
def decodeAt (op : aie_profile_op_t) (result_bo_map : List Nat) (i : Nat) :
    Option DecodedRecord :=
  match op.profile_data[i]?, readOutput result_bo_map i with
  | some perf_address, some v =>
    some { col := unpackCol perf_address
           row := unpackRow perf_address
           reg := unpackReg perf_address
           value := v }
  | _, _ => none

/-- The loop `for (uint32_t i = 0; i < op->count; i++)` of `endPoll`, from index `i`
with `n` iterations left: the records it logs, or `none` when an iteration
reads outside `profile_data` or outside the result buffer. -/
def decodeLoop (op : aie_profile_op_t) (result_bo_map : List Nat) : Nat → Nat →
    Option (List DecodedRecord)
  | _, 0 => some []
  | i, n + 1 =>
    match decodeAt op result_bo_map i with
    | none => none
    | some r =>
      match decodeLoop op result_bo_map (i + 1) n with
      | none => none
      | some rs => some (r :: rs)

/-- What the collaborators of `endPoll` do in one call: whether each of the four
guarded calls succeeds, and the bytes of the result buffer after the sync. -/
structure PollEnv where
  kernelFound : Bool
  instrBufferOk : Bool
  waitOk : Bool
  resultBufferOk : Bool
  result_bo_map : List Nat

/-- The five ways out of `endPoll`. -/
inductive PollExit where
  | kernelLookupFailed
  | instrBufferFailed
  | waitFailed
  | resultBufferFailed
  | decoded
deriving DecidableEq, Repr

/-- The state `endPoll` leaves behind: the way out, whether the block that
`updateAIEDevice` obtained from `malloc` for `op` is still allocated, and the
records logged. -/
structure PollOutcome where
  exit : PollExit
  opAllocated : Bool
  records : Option (List DecodedRecord)
deriving DecidableEq, Repr

/-- `AieDebugPlugin::endPoll`, called with the op built by `updateAIEDevice` still
allocated.  Each `catch` block returns at once; `free(op)` is the last
statement of the function. -/
def endPoll (env : PollEnv) (op : aie_profile_op_t) : PollOutcome :=
  if !env.kernelFound then
    { exit := PollExit.kernelLookupFailed, opAllocated := true, records := some [] }
  else if !env.instrBufferOk then
    { exit := PollExit.instrBufferFailed, opAllocated := true, records := some [] }
  else if !env.waitOk then
    { exit := PollExit.waitFailed, opAllocated := true, records := some [] }
  else if !env.resultBufferOk then
    { exit := PollExit.resultBufferFailed, opAllocated := true, records := some [] }
  else
    { exit := PollExit.decoded, opAllocated := false
      records := decodeLoop op env.result_bo_map 0 op.count }

/-- A token that is a hexadecimal number, in the words of the specification: a
non-empty string of hexadecimal digits. -/
def isHexNumber (t : List Char) : Bool :=
  !t.isEmpty && t.all (fun c => (hexDigit c).isSome)

/-- The register list as the specification words it: of the comma-separated
tokens (spaces removed first) those that are hexadecimal numbers contribute
their value, in order; every other token is dropped. -/
def specRegisters (config : List Char) : List Nat :=
  ((splitComma (removeSpaces config)).filter isHexNumber).map hexValue

/-! ## Properties -/

theorem tdiv_two_eq (d : Int) (hd : 0 ≤ d) : Int.tdiv d 2 = d / 2 :=
  Int.tdiv_eq_ediv hd (by omega)

theorem toUInt64_of_nonneg (i : Int) (h0 : 0 ≤ i) (h1 : i < 2 ^ 64) : toUInt64 i = i.toNat := by
  unfold toUInt64
  rw [Int.emod_eq_of_lt h0 h1]

theorem toInt64_of_lt (n : Nat) (h : n < 2 ^ 63) : toInt64 n = (n : Int) := by
  unfold toInt64
  have h1 : n % 2 ^ 64 = n := Nat.mod_eq_of_lt (by omega)
  rw [h1, if_pos h]

theorem wordCount_lt (bytes : Nat) (hb : bytes < 2 ^ 64) : wordCount bytes < 2 ^ 61 := by
  unfold wordCount TRACE_PACKET_SIZE
  omega

theorem wordCount_mul_le (bytes : Nat) : wordCount bytes * TRACE_PACKET_SIZE ≤ bytes := by
  unfold wordCount TRACE_PACKET_SIZE
  omega

/-- Loop invariant of the search: `boundary = high + 1`, the word before `low`
is non-zero, the word at `boundary` is zero; at exit the boundary is a place
where a non-zero word is followed by a zero word (or an end of the range). -/
theorem searchLoop_boundary (words : Nat → Nat) (n : Nat) (hn : n < 2 ^ 63)
    (low high : Int) (boundary : Nat) (probed : List Nat)
    (hlow : 0 ≤ low) (hlh : low ≤ high + 1) (hb : (boundary : Int) = high + 1)
    (hbn : boundary ≤ n)
    (hl : ∀ i : Nat, (i : Int) + 1 = low → words i ≠ 0)
    (hz : boundary < n → words boundary = 0) :
    (searchLoop words low high boundary probed).1 ≤ n ∧
    ((searchLoop words low high boundary probed).1 < n →
      words (searchLoop words low high boundary probed).1 = 0) ∧
    (∀ i : Nat, i + 1 = (searchLoop words low high boundary probed).1 → words i ≠ 0) := by
  induction low, high, boundary, probed using searchLoop.induct words with
  | case1 low high boundary probed hle mid hw ih =>
    have hmid : mid = low + (high - low) / 2 := by
      show low + Int.tdiv (high - low) 2 = _
      rw [tdiv_two_eq _ (by omega)]
    have hm0 : 0 ≤ mid := by omega
    have hmh : mid ≤ high := by omega
    have hu : toUInt64 mid = mid.toNat := toUInt64_of_nonneg mid hm0 (by omega)
    rw [searchLoop, if_pos hle]
    simp only [hw, if_true]
    show (searchLoop words low (mid - 1) (toUInt64 mid) (probed ++ [mid.toNat])).1 ≤ n ∧ _
    apply ih hlow (by omega) (by rw [hu]; omega) (by rw [hu]; omega) hl
    intro _
    rw [hu]; exact hw
  | case2 low high boundary probed hle mid hw ih =>
    have hmid : mid = low + (high - low) / 2 := by
      show low + Int.tdiv (high - low) 2 = _
      rw [tdiv_two_eq _ (by omega)]
    have hm0 : 0 ≤ mid := by omega
    have hmh : mid ≤ high := by omega
    rw [searchLoop, if_pos hle]
    simp only [hw, if_false]
    show (searchLoop words (mid + 1) high boundary (probed ++ [mid.toNat])).1 ≤ n ∧ _
    apply ih (by omega) (by omega) hb hbn _ hz
    intro i hi
    have : i = mid.toNat := by omega
    rw [this]; exact hw
  | case3 low high boundary probed hle =>
    rw [searchLoop, if_neg hle]
    refine ⟨hbn, hz, ?_⟩
    intro i hi
    apply hl
    simp only at hi
    omega

/-- Halving a non-empty range lowers `floor(log2) + 1` by at least one. -/
theorem log_bound_step (s t : Nat) (hs : 1 ≤ s) (ht : t ≤ s / 2) :
    (if t = 0 then 0 else Nat.log 2 t + 1) + 1 ≤ Nat.log 2 s + 1 := by
  by_cases h0 : t = 0
  · simp [h0]
  · rw [if_neg h0]
    have h2 : 2 ≤ s := by omega
    have h3 : Nat.log 2 t ≤ Nat.log 2 (s / 2) := Nat.log_mono_right ht
    have h4 : Nat.log 2 (s / 2) = Nat.log 2 s - 1 := Nat.log_div_base 2 s
    have h5 : 0 < Nat.log 2 s := Nat.log_pos (by omega) h2
    omega

/-- Every probe halves the remaining index range, so the loop reads at most
`floor(log2 (high - low + 1)) + 1` further words, and none when the range is
empty. -/
theorem searchLoop_probes_length (words : Nat → Nat)
    (low high : Int) (boundary : Nat) (probed : List Nat) :
    (searchLoop words low high boundary probed).2.length ≤
      probed.length +
        (if (high - low + 1).toNat = 0 then 0 else Nat.log 2 (high - low + 1).toNat + 1) := by
  induction low, high, boundary, probed using searchLoop.induct words with
  | case1 low high boundary probed hle mid hw ih =>
    have hmid : mid = low + (high - low) / 2 := by
      show low + Int.tdiv (high - low) 2 = _
      rw [tdiv_two_eq _ (by omega)]
    rw [searchLoop, if_pos hle]
    simp only [hw, if_true]
    show (searchLoop words low (mid - 1) (toUInt64 mid) (probed ++ [mid.toNat])).2.length ≤ _
    refine le_trans ih ?_
    rw [List.length_append, List.length_singleton]
    have hpos : 1 ≤ (high - low + 1).toNat := by omega
    have hs : (mid - 1 - low + 1).toNat ≤ (high - low + 1).toNat / 2 := by omega
    have h1 := log_bound_step _ _ hpos hs
    rw [if_neg (by omega : ¬ (high - low + 1).toNat = 0)]
    omega
  | case2 low high boundary probed hle mid hw ih =>
    have hmid : mid = low + (high - low) / 2 := by
      show low + Int.tdiv (high - low) 2 = _
      rw [tdiv_two_eq _ (by omega)]
    rw [searchLoop, if_pos hle]
    simp only [hw, if_false]
    show (searchLoop words (mid + 1) high boundary (probed ++ [mid.toNat])).2.length ≤ _
    refine le_trans ih ?_
    rw [List.length_append, List.length_singleton]
    have hpos : 1 ≤ (high - low + 1).toNat := by omega
    have hs : (high - (mid + 1) + 1).toNat ≤ (high - low + 1).toNat / 2 := by omega
    have h1 := log_bound_step _ _ hpos hs
    rw [if_neg (by omega : ¬ (high - low + 1).toNat = 0)]
    omega
  | case3 low high boundary probed hle =>
    rw [searchLoop, if_neg hle]
    simp

/-- The loop only reads words whose index lies in `[low, high]`. -/
theorem searchLoop_probes_range (words : Nat → Nat) (lo hi : Int)
    (low high : Int) (boundary : Nat) (probed : List Nat)
    (hlo : lo ≤ low) (hhi : high ≤ hi) (h0 : 0 ≤ lo)
    (hp : ∀ i ∈ probed, lo ≤ (i : Int) ∧ (i : Int) ≤ hi) :
    ∀ i ∈ (searchLoop words low high boundary probed).2, lo ≤ (i : Int) ∧ (i : Int) ≤ hi := by
  induction low, high, boundary, probed using searchLoop.induct words with
  | case1 low high boundary probed hle mid hw ih =>
    have hmid : mid = low + (high - low) / 2 := by
      show low + Int.tdiv (high - low) 2 = _
      rw [tdiv_two_eq _ (by omega)]
    rw [searchLoop, if_pos hle]
    simp only [hw, if_true]
    show ∀ i ∈ (searchLoop words low (mid - 1) (toUInt64 mid) (probed ++ [mid.toNat])).2, _
    apply ih hlo (by omega)
    intro i hi'
    rcases List.mem_append.1 hi' with h | h
    · exact hp i h
    · have : i = mid.toNat := by simpa using h
      omega
  | case2 low high boundary probed hle mid hw ih =>
    have hmid : mid = low + (high - low) / 2 := by
      show low + Int.tdiv (high - low) 2 = _
      rw [tdiv_two_eq _ (by omega)]
    rw [searchLoop, if_pos hle]
    simp only [hw, if_false]
    show ∀ i ∈ (searchLoop words (mid + 1) high boundary (probed ++ [mid.toNat])).2, _
    apply ih (by omega) hhi
    intro i hi'
    rcases List.mem_append.1 hi' with h | h
    · exact hp i h
    · have : i = mid.toNat := by simpa using h
      omega
  | case3 low high boundary probed hle =>
    rw [searchLoop, if_neg hle]
    exact hp

/-- The boundary found by `searchWrittenBytes`, for any buffer contents. -/
theorem searchRun_boundary (words : Nat → Nat) (bytes : Nat) (hb : bytes < 2 ^ 64) :
    (searchRun words bytes).1 ≤ wordCount bytes ∧
    ((searchRun words bytes).1 < wordCount bytes → words (searchRun words bytes).1 = 0) ∧
    (∀ i : Nat, i + 1 = (searchRun words bytes).1 → words i ≠ 0) := by
  have hn := wordCount_lt bytes hb
  have hc : toInt64 (wordCount bytes) = (wordCount bytes : Int) :=
    toInt64_of_lt _ (by omega)
  unfold searchRun
  simp only [hc]
  apply searchLoop_boundary words (wordCount bytes) (by omega) 0 _ _ [] (by omega) (by omega)
    (by omega) (le_refl _)
  · intro i hi; omega
  · intro h; omega

/-- Every word the search reads lies inside the buffer: its index is below the
word count. -/
theorem searchProbes_in_bounds (words : Nat → Nat) (bytes : Nat) (hb : bytes < 2 ^ 64) :
    ∀ i ∈ searchProbes words bytes, i < wordCount bytes := by
  have hn := wordCount_lt bytes hb
  have hc : toInt64 (wordCount bytes) = (wordCount bytes : Int) :=
    toInt64_of_lt _ (by omega)
  intro i hi
  have h := searchLoop_probes_range words 0 ((wordCount bytes : Int) - 1) 0
    (toInt64 (wordCount bytes) - 1) (wordCount bytes) [] (le_refl _) (by omega) (le_refl _)
    (by intro j hj; cases hj) i hi
  omega

/-- The value returned is the boundary times the packet size: the
multiplication does not wrap around. -/
theorem searchWrittenBytes_eq (words : Nat → Nat) (bytes : Nat) (hb : bytes < 2 ^ 64) :
    searchWrittenBytes words bytes = (searchRun words bytes).1 * TRACE_PACKET_SIZE := by
  have h1 := (searchRun_boundary words bytes hb).1
  have h2 := wordCount_mul_le bytes
  unfold searchWrittenBytes
  apply Nat.mod_eq_of_lt
  have : (searchRun words bytes).1 * TRACE_PACKET_SIZE ≤ wordCount bytes * TRACE_PACKET_SIZE :=
    Nat.mul_le_mul_right _ h1
  omega

/-! ### Properties of the boundary search -/

/-- C1: for a buffer whose first `k` words are non-zero and whose remaining words
(up to the word count `bytes / TRACE_PACKET_SIZE`) are zero, with
`0 ≤ k ≤ wordCount`, `searchWrittenBytes` returns `k * TRACE_PACKET_SIZE`. -/
theorem searchWrittenBytes_monotone (words : Nat → Nat) (bytes k : Nat)
    (hb : bytes < 2 ^ 64) (hk : k ≤ wordCount bytes)
    (hnz : ∀ i, i < k → words i ≠ 0)
    (hz : ∀ i, k ≤ i → i < wordCount bytes → words i = 0) :
    searchWrittenBytes words bytes = k * TRACE_PACKET_SIZE := by
  rw [searchWrittenBytes_eq words bytes hb]
  obtain ⟨h1, h2, h3⟩ := searchRun_boundary words bytes hb
  have hge : k ≤ (searchRun words bytes).1 := by
    by_contra hlt
    push_neg at hlt
    exact hnz _ hlt (h2 (by omega))
  have hle : (searchRun words bytes).1 ≤ k := by
    by_contra hlt
    push_neg at hlt
    obtain ⟨j, hj⟩ : ∃ j, j + 1 = (searchRun words bytes).1 := ⟨(searchRun words bytes).1 - 1, by omega⟩
    exact h3 j hj (hz j (by omega) (by omega))
  rw [le_antisymm hle hge]

/-- C1, the 512-word scenario: words 0..99 non-zero, words 100..511 zero, 4096
bytes: the search returns 800. -/
theorem searchWrittenBytes_monotone_witness :
    (100 ≤ wordCount 4096) ∧
    searchWrittenBytes (fun i => if i < 100 then 0xA5A50000 + i else 0) 4096
      = 100 * TRACE_PACKET_SIZE ∧ 100 * TRACE_PACKET_SIZE = 800 :=
  ⟨by decide,
   searchWrittenBytes_monotone (fun i => if i < 100 then 0xA5A50000 + i else 0) 4096 100
    (by norm_num) (by decide)
    (by intro i hi; simp only [if_pos hi]; omega)
    (by intro i hi _; simp only [if_neg (by omega : ¬ i < 100)]),
   by decide⟩

/-- C2 fails as stated: the three-word buffer `[0, 1, 0]` (24 bytes) has a zero
first word, yet the search probes word 1 (non-zero), moves right and returns
16. -/
theorem searchWrittenBytes_first_zero_counterexample :
    (fun i : Nat => if i = 1 then 1 else 0) 0 = 0 ∧ 1 ≤ wordCount 24 ∧
    searchWrittenBytes (fun i => if i = 1 then 1 else 0) 24 = 16 := by
  refine ⟨by decide, by decide, ?_⟩
  unfold searchWrittenBytes searchRun wordCount TRACE_PACKET_SIZE
  simp [searchLoop, toInt64, toUInt64]

/-- C2 (amended): when the first word is zero and the buffer obeys the monotone
boundary assumption (within the word count no non-zero word follows a zero
word), `searchWrittenBytes` returns 0. -/
theorem searchWrittenBytes_first_zero (words : Nat → Nat) (bytes : Nat)
    (hb : bytes < 2 ^ 64) (_hn : 1 ≤ wordCount bytes) (h0 : words 0 = 0)
    (hmono : ∀ i j, i ≤ j → j < wordCount bytes → words i = 0 → words j = 0) :
    searchWrittenBytes words bytes = 0 := by
  rw [searchWrittenBytes_eq words bytes hb]
  obtain ⟨h1, _, h3⟩ := searchRun_boundary words bytes hb
  have hz : (searchRun words bytes).1 = 0 := by
    by_contra hne
    obtain ⟨j, hj⟩ : ∃ j, j + 1 = (searchRun words bytes).1 := ⟨(searchRun words bytes).1 - 1, by omega⟩
    exact h3 j hj (hmono 0 j (Nat.zero_le _) (by omega) h0)
  rw [hz, Nat.zero_mul]

/-- C2 (amended), on a 4-word all-zero-after-word-0 buffer of 32 bytes. -/
theorem searchWrittenBytes_first_zero_witness :
    1 ≤ wordCount 32 ∧ searchWrittenBytes (fun _ => 0) 32 = 0 :=
  ⟨by decide,
   searchWrittenBytes_first_zero (fun _ => 0) 32 (by norm_num) (by decide) rfl
    (by intro i j _ _ _; rfl)⟩

/-- C9: the search reads no word when the word count is 0 and at most
`floor(log2 wordCount) + 1` words otherwise (the loop is a total function: it
terminates on every buffer and every capacity). -/
theorem searchWrittenBytes_probe_count (words : Nat → Nat) (bytes : Nat)
    (hb : bytes < 2 ^ 64) :
    (wordCount bytes = 0 → (searchProbes words bytes).length = 0) ∧
    (1 ≤ wordCount bytes →
      (searchProbes words bytes).length ≤ Nat.log 2 (wordCount bytes) + 1) := by
  have hn := wordCount_lt bytes hb
  have hc : toInt64 (wordCount bytes) = (wordCount bytes : Int) :=
    toInt64_of_lt _ (by omega)
  have h := searchLoop_probes_length words 0 (toInt64 (wordCount bytes) - 1) (wordCount bytes) []
  rw [hc] at h
  have hs : ((wordCount bytes : Int) - 1 - 0 + 1).toNat = wordCount bytes := by omega
  rw [hs] at h
  unfold searchProbes searchRun
  simp only [hc]
  constructor
  · intro h0
    rw [if_pos h0] at h
    simpa using h
  · intro h1
    rw [if_neg (by omega)] at h
    simpa using h

/-- C9 on a 4096-byte buffer (512 words): at most 10 probes. -/
theorem searchWrittenBytes_probe_count_witness :
    (searchProbes (fun i => if i < 100 then 1 else 0) 4096).length ≤ Nat.log 2 (wordCount 4096) + 1 :=
  (searchWrittenBytes_probe_count (fun i => if i < 100 then 1 else 0) 4096 (by norm_num)).2
    (by decide)

/-- C10: for any buffer contents, the result is `b * TRACE_PACKET_SIZE` for an
index `b ≤ wordCount` such that word `b` is zero when `b < wordCount` and word
`b - 1` is non-zero when `b > 0`; so the result is a multiple of the packet size
and does not exceed the byte capacity. -/
theorem searchWrittenBytes_local_boundary (words : Nat → Nat) (bytes : Nat)
    (hb : bytes < 2 ^ 64) :
    ∃ b : Nat, b ≤ wordCount bytes ∧
      searchWrittenBytes words bytes = b * TRACE_PACKET_SIZE ∧
      (b < wordCount bytes → words b = 0) ∧
      (0 < b → words (b - 1) ≠ 0) ∧
      TRACE_PACKET_SIZE ∣ searchWrittenBytes words bytes ∧
      searchWrittenBytes words bytes ≤ bytes := by
  obtain ⟨h1, h2, h3⟩ := searchRun_boundary words bytes hb
  have he := searchWrittenBytes_eq words bytes hb
  refine ⟨(searchRun words bytes).1, h1, he, h2, ?_, ?_, ?_⟩
  · intro hpos
    exact h3 _ (by omega)
  · rw [he]
    exact Dvd.intro_left _ rfl
  · rw [he]
    have := wordCount_mul_le bytes
    have : (searchRun words bytes).1 * TRACE_PACKET_SIZE ≤ wordCount bytes * TRACE_PACKET_SIZE :=
      Nat.mul_le_mul_right _ h1
    omega

/-- C10 on the non-monotone 3-word buffer `[0, 1, 0]`. -/
theorem searchWrittenBytes_local_boundary_witness :
    ∃ b : Nat, b ≤ wordCount 24 ∧
      searchWrittenBytes (fun i => if i = 1 then 1 else 0) 24 = b * TRACE_PACKET_SIZE ∧
      (b < wordCount 24 → (fun i : Nat => if i = 1 then 1 else 0) b = 0) ∧
      (0 < b → (fun i : Nat => if i = 1 then 1 else 0) (b - 1) ≠ 0) ∧
      TRACE_PACKET_SIZE ∣ searchWrittenBytes (fun i => if i = 1 then 1 else 0) 24 ∧
      searchWrittenBytes (fun i => if i = 1 then 1 else 0) 24 ≤ 24 :=
  searchWrittenBytes_local_boundary (fun i => if i = 1 then 1 else 0) 24 (by norm_num)

/-! ### Register descriptors: packing and unpacking -/

theorem and_31_eq_mod (x : Nat) : x &&& 0x1F = x % 32 :=
  Nat.and_pow_two_sub_one_eq_mod x 5

theorem and_fffff_eq_mod (x : Nat) : x &&& 0xFFFFF = x % 2 ^ 20 :=
  Nat.and_pow_two_sub_one_eq_mod x 20

/-- For disjoint bit patterns below `2 ^ 64`, addition and bitwise or agree. -/
theorem add_eq_or_of_disjoint (a b : Nat) (ha : a < 2 ^ 64) (hb : b < 2 ^ 64)
    (h : a &&& b = 0) : a + b = a ||| b := by
  have hbv : BitVec.ofNat 65 a &&& BitVec.ofNat 65 b = 0#65 := by
    apply BitVec.eq_of_toNat_eq
    simp only [BitVec.toNat_and, BitVec.toNat_ofNat, Nat.zero_mod]
    rw [Nat.mod_eq_of_lt (by omega : a < 2 ^ 65), Nat.mod_eq_of_lt (by omega : b < 2 ^ 65), h]
  have h2 := congrArg BitVec.toNat (BitVec.add_eq_or_of_and_eq_zero _ _ hbv)
  simp only [BitVec.toNat_add, BitVec.toNat_or, BitVec.toNat_ofNat] at h2
  rw [Nat.mod_eq_of_lt (by omega : a < 2 ^ 65), Nat.mod_eq_of_lt (by omega : b < 2 ^ 65),
    Nat.mod_eq_of_lt (by omega : a + b < 2 ^ 65)] at h2
  exact h2

/-- C3: packing `(register, column, row)` as `updateAIEDevice` does and unpacking
as `endPoll` does gives back the triple, for `register < 2^20`, `column < 2^5`,
`row < 2^5`. -/
theorem pack_unpack_roundtrip (reg col row : Nat)
    (hr : reg < 2 ^ 20) (hc : col < 2 ^ 5) (hw : row < 2 ^ 5) :
    unpackCol (packAddress reg { col := col, row := row }) = col ∧
    unpackRow (packAddress reg { col := col, row := row }) = row ∧
    unpackReg (packAddress reg { col := col, row := row }) = reg := by
  unfold unpackCol unpackRow unpackReg packAddress
  simp only [and_31_eq_mod, and_fffff_eq_mod, Nat.shiftLeft_eq, Nat.shiftRight_eq_div_pow]
  norm_num at hr hc hw ⊢
  omega

/-- C3 at register `0xFFFFF`, column 31, row 31. -/
theorem pack_unpack_roundtrip_witness :
    unpackCol (packAddress 0xFFFFF { col := 31, row := 31 }) = 31 ∧
    unpackRow (packAddress 0xFFFFF { col := 31, row := 31 }) = 31 ∧
    unpackReg (packAddress 0xFFFFF { col := 31, row := 31 }) = 0xFFFFF :=
  pack_unpack_roundtrip 0xFFFFF 31 31 (by norm_num) (by norm_num) (by norm_num)

/-- C8 fails as stated: register `0x100000` on tile (column 0, row 1) is packed by
addition into `0x200000`, while `register | column<<25 | row<<20` is
`0x100000`. -/
theorem packAddress_or_counterexample :
    packAddress 0x100000 { col := 0, row := 1 } = 0x200000 ∧
    0x100000 ||| (0 <<< 25) ||| (1 <<< 20) = 0x100000 ∧
    packAddress 0x100000 { col := 0, row := 1 } ≠ 0x100000 ||| (0 <<< 25) ||| (1 <<< 20) := by
  decide

/-- C8 (amended): the packed address is the 64-bit sum
`register + (column << 25) + (row << 20)`; it equals
`register | (column << 25) | (row << 20)` for every 64-bit register that has no
set bit in common with `(column << 25) | (row << 20)`, with `column < 2^5` and
`row < 2^5`. -/
theorem packAddress_eq_or (reg col row : Nat)
    (hr : reg < 2 ^ 64) (hc : col < 2 ^ 5) (hw : row < 2 ^ 5)
    (hd : reg &&& ((col <<< 25) ||| (row <<< 20)) = 0) :
    packAddress reg { col := col, row := row } = reg ||| (col <<< 25) ||| (row <<< 20) := by
  have hrow : row <<< 20 < 2 ^ 25 := by
    rw [Nat.shiftLeft_eq]; norm_num at hw ⊢; omega
  have hcol : col <<< 25 < 2 ^ 30 := by
    rw [Nat.shiftLeft_eq]; norm_num at hc ⊢; omega
  have h1 : col <<< 25 + row <<< 20 = col <<< 25 ||| row <<< 20 := by
    have h := Nat.mul_add_lt_is_or hrow col
    rw [Nat.mul_comm, ← Nat.shiftLeft_eq] at h
    exact h
  have h2 : reg + (col <<< 25 ||| row <<< 20) = reg ||| (col <<< 25 ||| row <<< 20) :=
    add_eq_or_of_disjoint _ _ hr (by rw [← h1]; omega) hd
  have hlt : reg ||| (col <<< 25 ||| row <<< 20) < 2 ^ 64 :=
    Nat.or_lt_two_pow hr (by rw [← h1]; omega)
  unfold packAddress
  show (reg + col <<< 25 + row <<< 20) % 2 ^ 64 = _
  rw [Nat.add_assoc, h1, h2, Nat.mod_eq_of_lt hlt, Nat.or_assoc]

/-- C8 (amended) at register `0x40031000` (bit 30 set, bits 20..29 clear),
column 2, row 3. -/
theorem packAddress_eq_or_witness :
    packAddress 0x40031000 { col := 2, row := 3 } = 0x40031000 ||| (2 <<< 25) ||| (3 <<< 20) :=
  packAddress_eq_or 0x40031000 2 3 (by norm_num) (by norm_num) (by norm_num) (by decide)

/-! ### The descriptor-building loop of `updateAIEDevice` -/

/-- The inner loop over the registers, for one tile. -/
theorem emitTile_eq (tile : tile_type) (Regs : List Nat) (st : List Nat × Nat) :
    Regs.foldl (fun st reg => (st.1 ++ [packAddress reg tile], st.2 + 1)) st =
      (st.1 ++ Regs.map (fun reg => packAddress reg tile), st.2 + Regs.length) := by
  induction Regs generalizing st with
  | nil => simp
  | cons r rs ih =>
    rw [List.foldl_cons, ih]
    simp only [List.map_cons, List.length_cons, List.append_assoc, List.singleton_append]
    congr 1
    omega

/-- The two nested loops, for one module. -/
theorem emitModule_eq (tiles : List tile_type) (Regs : List Nat) (st : List Nat × Nat) :
    emitModule tiles Regs st =
      (st.1 ++ tiles.flatMap (fun tile => Regs.map (fun reg => packAddress reg tile)),
       st.2 + tiles.length * Regs.length) := by
  unfold emitModule
  induction tiles generalizing st with
  | nil => simp
  | cons t ts ih =>
    rw [List.foldl_cons, emitTile_eq, ih]
    simp only [List.flatMap_cons, List.length_cons, List.append_assoc]
    congr 1
    rw [Nat.add_mul, Nat.one_mul]
    omega

/-- The op holds as many descriptors as `count` says. -/
theorem emitModule_count_eq_length (tiles : List tile_type) (Regs : List Nat)
    (st : List Nat × Nat) (h : st.2 = st.1.length) :
    (emitModule tiles Regs st).2 = (emitModule tiles Regs st).1.length := by
  rw [emitModule_eq]
  simp only [List.length_append, List.length_flatMap, List.length_map, h]
  congr 1
  induction tiles with
  | nil => simp
  | cons t ts ih => simp [Nat.add_mul, ih, Nat.add_comm]

/-- C5 fails as stated: with registers `[0x100, 0x200]` and tiles `(1,1)`, `(2,3)`
the loop emits both registers for tile `(1,1)` first and then both for tile
`(2,3)`; the register-major order of the claim is a different list. -/
theorem emitModule_order_counterexample :
    (emitModule [{ col := 1, row := 1 }, { col := 2, row := 3 }] [0x100, 0x200] ([], 0)).1 =
      [0x100 + (1 <<< 25) + (1 <<< 20), 0x200 + (1 <<< 25) + (1 <<< 20),
       0x100 + (2 <<< 25) + (3 <<< 20), 0x200 + (2 <<< 25) + (3 <<< 20)] ∧
    (emitModule [{ col := 1, row := 1 }, { col := 2, row := 3 }] [0x100, 0x200] ([], 0)).1 ≠
      [0x100 + (1 <<< 25) + (1 <<< 20), 0x100 + (2 <<< 25) + (3 <<< 20),
       0x200 + (1 <<< 25) + (1 <<< 20), 0x200 + (2 <<< 25) + (3 <<< 20)] := by
  decide

/-- C5 (amended): for tile list `T` and register list `R` the loop appends exactly
`|T| * |R|` descriptors, in tile-major order: all registers of `R` in order for
the first tile of `T`, then all registers for the second tile, and so on. -/
theorem emitModule_tile_major (tiles : List tile_type) (Regs : List Nat)
    (op_profile_data : List Nat) (counterId : Nat) :
    (emitModule tiles Regs (op_profile_data, counterId)).1 =
      op_profile_data ++
        tiles.flatMap (fun tile => Regs.map (fun reg => packAddress reg tile)) ∧
    (emitModule tiles Regs (op_profile_data, counterId)).2 =
      counterId + tiles.length * Regs.length ∧
    (tiles.flatMap (fun tile => Regs.map (fun reg => packAddress reg tile))).length =
      tiles.length * Regs.length := by
  rw [emitModule_eq]
  refine ⟨rfl, rfl, ?_⟩
  induction tiles with
  | nil => simp
  | cons t ts ih =>
    rw [List.flatMap_cons, List.length_append, ih, List.length_map, List.length_cons,
      Nat.add_mul, Nat.one_mul, Nat.add_comm]

/-! ### The decode loop and the exits of `endPoll` -/

/-- A read whose last byte lies beyond the end of the buffer fails. -/
theorem readOutput_none (buf : List Nat) (i : Nat)
    (h : buf.length ≤ offset_3K + 4 * i + 3) : readOutput buf i = none := by
  have h3 : buf[offset_3K + 4 * i + 3]? = none := List.getElem?_eq_none h
  unfold readOutput
  simp only [h3]
  split
  · rename_i heq; cases heq
  · rfl

/-- A read of one of the first 256 words of the result area succeeds. -/
theorem readOutput_some (buf : List Nat) (i : Nat)
    (hlen : buf.length = size_4K) (hi : i < 256) : ∃ v, readOutput buf i = some v := by
  have hl : offset_3K + 4 * i + 3 < buf.length := by
    rw [hlen]; unfold offset_3K size_4K; omega
  unfold readOutput
  simp only [List.getElem?_eq_getElem (by omega : offset_3K + 4 * i < buf.length),
    List.getElem?_eq_getElem (by omega : offset_3K + 4 * i + 1 < buf.length),
    List.getElem?_eq_getElem (by omega : offset_3K + 4 * i + 2 < buf.length),
    List.getElem?_eq_getElem hl]
  exact ⟨_, rfl⟩

/-- The loop fails as soon as its last iteration reads beyond the buffer. -/
theorem decodeLoop_none (op : aie_profile_op_t) (buf : List Nat) (n i : Nat)
    (h : buf.length ≤ offset_3K + 4 * (i + n) + 3) :
    decodeLoop op buf i (n + 1) = none := by
  induction n generalizing i with
  | zero =>
    have hr : readOutput buf i = none := readOutput_none buf i (by omega)
    have hd : decodeAt op buf i = none := by
      unfold decodeAt
      rw [hr]
      split
      · rename_i heq; cases heq
      · rfl
    rw [decodeLoop, hd]
  | succ n ih =>
    rw [decodeLoop]
    cases decodeAt op buf i with
    | none => rfl
    | some r =>
      have := ih (i + 1) (by omega)
      simp only [this]

/-- While the indices stay below 256 and inside `profile_data`, the loop logs one
record per iteration: record `j` pairs the triple unpacked from descriptor
`i + j` with the word `output[i + j]`. -/
theorem decodeLoop_some (op : aie_profile_op_t) (buf : List Nat)
    (hlen : buf.length = size_4K) (n i : Nat)
    (hp : i + n ≤ op.profile_data.length) (hc : i + n ≤ 256) :
    ∃ rs, decodeLoop op buf i n = some rs ∧ rs.length = n ∧
      ∀ j, j < n → ∃ a v, op.profile_data[i + j]? = some a ∧
        readOutput buf (i + j) = some v ∧
        rs[j]? = some { col := unpackCol a, row := unpackRow a, reg := unpackReg a, value := v } := by
  induction n generalizing i with
  | zero => exact ⟨[], rfl, rfl, fun j hj => absurd hj (Nat.not_lt_zero j)⟩
  | succ n ih =>
    obtain ⟨rs, hrs, hl, hrec⟩ := ih (i + 1) (by omega) (by omega)
    obtain ⟨v, hv⟩ := readOutput_some buf i hlen (by omega)
    have hlt : i < op.profile_data.length := by omega
    have ha : op.profile_data[i]? = some op.profile_data[i] :=
      List.getElem?_eq_getElem hlt
    have hd : decodeAt op buf i = some
        { col := unpackCol op.profile_data[i], row := unpackRow op.profile_data[i]
          reg := unpackReg op.profile_data[i], value := v } := by
      unfold decodeAt
      rw [ha, hv]
    refine ⟨{ col := unpackCol op.profile_data[i], row := unpackRow op.profile_data[i]
              reg := unpackReg op.profile_data[i], value := v } :: rs, ?_, by simp [hl], ?_⟩
    · rw [decodeLoop, hd, hrs]
    · intro j hj
      cases j with
      | zero => exact ⟨_, v, ha, hv, by simp⟩
      | succ j =>
        obtain ⟨a, w, h1, h2, h3⟩ := hrec j (by omega)
        refine ⟨a, w, ?_, ?_, ?_⟩
        · rw [← h1]; congr 1; omega
        · rw [← h2]; congr 1; omega
        · simpa using h3

/-- The op built by `updateAIEDevice` has `count` equal to the number of
descriptors stored. -/
theorem updateAIEDevice_count (tilesOf : module_type → List tile_type)
    (regValues : module_type → List Nat) :
    (updateAIEDevice tilesOf regValues).count =
      (updateAIEDevice tilesOf regValues).profile_data.length := by
  unfold updateAIEDevice moduleTypes
  simp only [List.foldl_cons, List.foldl_nil]
  apply emitModule_count_eq_length
  apply emitModule_count_eq_length
  apply emitModule_count_eq_length
  apply emitModule_count_eq_length
  rfl

/-- An op of at most 256 descriptors is decoded in full on the success path:
`N` records, record `i` pairing descriptor `i` with `output[i]`. -/
theorem endPoll_decode_within_capacity (env : PollEnv) (op : aie_profile_op_t)
    (hk : env.kernelFound = true) (hi : env.instrBufferOk = true) (hw : env.waitOk = true)
    (hr : env.resultBufferOk = true) (hlen : env.result_bo_map.length = size_4K)
    (hcount : op.count = op.profile_data.length) (hN : op.count ≤ 256) :
    ∃ rs, (endPoll env op).records = some rs ∧ rs.length = op.count ∧
      ∀ j, j < op.count → ∃ a v, op.profile_data[j]? = some a ∧
        readOutput env.result_bo_map j = some v ∧
        rs[j]? = some { col := unpackCol a, row := unpackRow a, reg := unpackReg a, value := v } := by
  obtain ⟨rs, h1, h2, h3⟩ :=
    decodeLoop_some op env.result_bo_map hlen op.count 0 (by omega) (by omega)
  refine ⟨rs, ?_, h2, ?_⟩
  · unfold endPoll
    simp [hk, hi, hw, hr, h1]
  · intro j hj
    simpa using h3 j hj

/-- C6, the failing input: one core tile and 257 core registers give an op of 257
descriptors; every guarded call of `endPoll` succeeds and the result buffer
has its `0x1000` bytes, yet the decode loop reads `output[256]`, the four
bytes from offset `0x1000` on, outside the buffer. -/
theorem endPoll_decode_out_of_bounds :
    (updateAIEDevice
        (fun type => if type = module_type.core then [{ col := 1, row := 2 }] else [])
        (fun type => if type = module_type.core then List.replicate 257 0x100 else [])).count
      = 257 ∧
    offset_3K + 4 * 256 = size_4K ∧
    (endPoll
        { kernelFound := true, instrBufferOk := true, waitOk := true, resultBufferOk := true
          result_bo_map := List.replicate size_4K 0 }
        (updateAIEDevice
          (fun type => if type = module_type.core then [{ col := 1, row := 2 }] else [])
          (fun type => if type = module_type.core then List.replicate 257 0x100 else []))).records
      = none := by
  have hc : (updateAIEDevice
        (fun type => if type = module_type.core then [{ col := 1, row := 2 }] else [])
        (fun type => if type = module_type.core then List.replicate 257 0x100 else [])).count
      = 257 := by
    unfold updateAIEDevice moduleTypes
    simp only [List.foldl_cons, List.foldl_nil, emitModule_eq, if_true, reduceCtorEq, if_false,
      List.length_replicate, List.length_cons, List.length_nil]
  refine ⟨hc, by decide, ?_⟩
  unfold endPoll
  simp only [Bool.not_true, Bool.false_eq_true, if_false]
  rw [hc]
  exact decodeLoop_none _ _ 256 0 (by rw [List.length_replicate]; unfold size_4K offset_3K; omega)

/-- C7, the failing inputs: on each of the four early returns of `endPoll` the
block allocated for `op` is still allocated when the function returns; only
the path that reaches the decode loop frees it. -/
theorem endPoll_early_return_keeps_op (op : aie_profile_op_t) (buf : List Nat) :
    (endPoll { kernelFound := false, instrBufferOk := true, waitOk := true,
               resultBufferOk := true, result_bo_map := buf } op).opAllocated = true ∧
    (endPoll { kernelFound := true, instrBufferOk := false, waitOk := true,
               resultBufferOk := true, result_bo_map := buf } op).opAllocated = true ∧
    (endPoll { kernelFound := true, instrBufferOk := true, waitOk := false,
               resultBufferOk := true, result_bo_map := buf } op).opAllocated = true ∧
    (endPoll { kernelFound := true, instrBufferOk := true, waitOk := true,
               resultBufferOk := false, result_bo_map := buf } op).opAllocated = true ∧
    (endPoll { kernelFound := true, instrBufferOk := true, waitOk := true,
               resultBufferOk := true, result_bo_map := buf } op).opAllocated = false := by
  refine ⟨rfl, rfl, rfl, rfl, rfl⟩

/-! ### Parsing the register lists -/

theorem hexDigit_some_facts (c : Char) (h : (hexDigit c).isSome = true) :
    c ≠ ' ' ∧ c ≠ ',' ∧ c ≠ '-' ∧ c ≠ '+' ∧ c ≠ 'x' ∧ c ≠ 'X' ∧ isSpaceChar c = false := by
  refine ⟨?_, ?_, ?_, ?_, ?_, ?_, ?_⟩
  · rintro rfl; exact absurd h (by decide)
  · rintro rfl; exact absurd h (by decide)
  · rintro rfl; exact absurd h (by decide)
  · rintro rfl; exact absurd h (by decide)
  · rintro rfl; exact absurd h (by decide)
  · rintro rfl; exact absurd h (by decide)
  · unfold hexDigit at h
    unfold isSpaceChar
    simp only at h
    split at h
    · simp; omega
    · split at h
      · simp; omega
      · split at h
        · simp; omega
        · simp at h

theorem splitComma_ne_nil (s : List Char) : splitComma s ≠ [] := by
  cases s with
  | nil => simp [splitComma]
  | cons c cs =>
    unfold splitComma
    split
    · simp
    · split <;> simp

theorem splitComma_append_comma (a b : List Char) :
    splitComma (a ++ ',' :: b) = splitComma a ++ splitComma b := by
  induction a with
  | nil => simp [splitComma]
  | cons c cs ih =>
    rw [List.cons_append]
    by_cases hc : c = ','
    · simp only [splitComma, hc, if_true, ih, List.cons_append]
    · have hne := splitComma_ne_nil cs
      simp only [splitComma, hc, if_false, ih]
      cases hs : splitComma cs with
      | nil => exact absurd hs hne
      | cons t ts => simp

theorem splitComma_no_comma (t : List Char) (h : ',' ∉ t) : splitComma t = [t] := by
  induction t with
  | nil => rfl
  | cons c cs ih =>
    have hc : c ≠ ',' := fun e => h (by simp [e])
    have hcs : ',' ∉ cs := fun e => h (List.mem_cons_of_mem _ e)
    simp only [splitComma, hc, if_false, ih hcs]

theorem removeSpaces_append_comma (a b : List Char) :
    removeSpaces (a ++ ',' :: b) = removeSpaces a ++ ',' :: removeSpaces b := by
  unfold removeSpaces
  rw [List.filter_append, List.filter_cons_of_pos (by decide)]

theorem removeSpaces_idem (s : List Char) : removeSpaces (removeSpaces s) = removeSpaces s := by
  unfold removeSpaces
  rw [List.filter_filter]
  congr 1
  funext c
  simp

theorem stoul16_nil : stoul16 [] = none := by decide

theorem parseLoop_eq (toks : List (List Char)) (regs : List Nat) :
    parseLoop toks regs = regs ++ toks.filterMap stoul16 := by
  unfold parseLoop
  induction toks generalizing regs with
  | nil => simp
  | cons t ts ih =>
    rw [List.foldl_cons, ih]
    cases h : stoul16 t with
    | none => simp [List.filterMap_cons, h]
    | some v => simp [List.filterMap_cons, h]

/-- The register list is what `stoul` yields on the tokens of the string with
its spaces removed. -/
theorem parseRegisters_eq (s : List Char) :
    parseRegisters s = (splitComma (removeSpaces s)).filterMap stoul16 := by
  unfold parseRegisters getSettingsVector
  cases s with
  | nil => simp [parseLoop, removeSpaces, splitComma, stoul16_nil]
  | cons c cs => simp [parseLoop_eq]

theorem skipHexMarker_of_second (c0 x : Char) (rest : List Char)
    (h : c0 ≠ '0' ∨ (x ≠ 'x' ∧ x ≠ 'X')) :
    skipHexMarker (c0 :: x :: rest) = c0 :: x :: rest := by
  cases rest with
  | nil => rfl
  | cons d r =>
    show (if c0 = '0' ∧ (x = 'x' ∨ x = 'X') ∧ (hexDigit d).isSome = true then d :: r
      else c0 :: x :: d :: r) = _
    rw [if_neg]
    rintro ⟨h0, hx, _⟩
    rcases h with h | ⟨h1, h2⟩
    · exact h h0
    · rcases hx with hx | hx
      · exact h1 hx
      · exact h2 hx

theorem skipHexMarker_single (c0 : Char) : skipHexMarker [c0] = [c0] := rfl

/-- The conversion `stoul` performs on a token that starts with a run `t` of
hexadecimal digits: the value of the run, whatever follows it, when that value
fits `unsigned long`; otherwise `stoul` throws `out_of_range`. -/
theorem stoul16_leading_hex (t r : List Char) (ht : t ≠ [])
    (hall : ∀ c ∈ t, (hexDigit c).isSome = true)
    (hr : ∀ c r', r = c :: r' → hexDigit c = none ∧ (t = ['0'] → c ≠ 'x' ∧ c ≠ 'X')) :
    stoul16 (t ++ r) = if hexValue t < 2 ^ 64 then some (hexValue t) else none := by
  obtain ⟨c0, t', rfl⟩ : ∃ c0 t', t = c0 :: t' := by
    cases t with
    | nil => exact absurd rfl ht
    | cons a b => exact ⟨a, b, rfl⟩
  have hc0 := hexDigit_some_facts c0 (hall c0 (by simp))
  have h1 : (c0 :: t' ++ r).dropWhile isSpaceChar = c0 :: (t' ++ r) := by
    rw [List.cons_append, List.dropWhile_cons_of_neg (by simp [hc0.2.2.2.2.2.2])]
  have h2 : stripSign (c0 :: (t' ++ r)) = (false, c0 :: (t' ++ r)) := by
    simp [stripSign, hc0.2.2.1, hc0.2.2.2.1]
  have h3 : skipHexMarker (c0 :: (t' ++ r)) = c0 :: (t' ++ r) := by
    cases t' with
    | nil =>
      cases r with
      | nil => rfl
      | cons c r' =>
        have := (hr c r' rfl).2
        apply skipHexMarker_of_second
        by_cases h0 : c0 = '0'
        · right; exact this (by rw [h0])
        · left; exact h0
    | cons x t2 =>
      have hx := hexDigit_some_facts x (hall x (by simp))
      exact skipHexMarker_of_second c0 x _ (Or.inr ⟨hx.2.2.2.2.1, hx.2.2.2.2.2.1⟩)
  have h4 : (c0 :: (t' ++ r)).takeWhile (fun c => (hexDigit c).isSome) = c0 :: t' := by
    rw [← List.cons_append, List.takeWhile_append_of_pos hall]
    cases r with
    | nil => simp
    | cons c r' =>
      have := (hr c r' rfl).1
      rw [List.takeWhile_cons_of_neg (by simp [this])]
      simp
  unfold stoul16
  simp only [h1, h2, h3, h4]
  by_cases hv : hexValue (c0 :: t') < 2 ^ 64
  · have hv' : ¬ ULONG_MAX < hexValue (c0 :: t') := by
      unfold ULONG_MAX; omega
    rw [if_pos hv]
    simp [hv']
  · have hv' : ULONG_MAX < hexValue (c0 :: t') := by
      unfold ULONG_MAX; omega
    rw [if_neg hv]
    simp [hv']

/-- A token whose first character is neither white space, a sign nor a
hexadecimal digit makes `stoul` throw. -/
theorem stoul16_no_digit (c : Char) (r : List Char) (hd : hexDigit c = none)
    (hp : c ≠ '+') (hm : c ≠ '-') (hs : isSpaceChar c = false) :
    stoul16 (c :: r) = none := by
  have h0 : c ≠ '0' := by rintro rfl; exact absurd hd (by decide)
  have h1 : (c :: r).dropWhile isSpaceChar = c :: r :=
    List.dropWhile_cons_of_neg (by simp [hs])
  have h2 : stripSign (c :: r) = (false, c :: r) := by
    simp [stripSign, hp, hm]
  have h3 : skipHexMarker (c :: r) = c :: r := by
    cases r with
    | nil => rfl
    | cons x rest => exact skipHexMarker_of_second c x rest (Or.inl h0)
  have h4 : (c :: r).takeWhile (fun c => (hexDigit c).isSome) = [] :=
    List.takeWhile_cons_of_neg (by simp [hd])
  unfold stoul16
  simp only [h1, h2, h3, h4]
  rfl

theorem isHexNumber_iff (t : List Char) :
    isHexNumber t = true ↔ t ≠ [] ∧ ∀ c ∈ t, (hexDigit c).isSome = true := by
  unfold isHexNumber
  cases t with
  | nil => simp
  | cons a b => simp

theorem removeSpaces_hex (t : List Char) (hall : ∀ c ∈ t, (hexDigit c).isSome = true) :
    removeSpaces t = t := by
  unfold removeSpaces
  rw [List.filter_eq_self]
  intro c hc
  simp [(hexDigit_some_facts c (hall c hc)).1]

theorem no_comma_hex (t : List Char) (hall : ∀ c ∈ t, (hexDigit c).isSome = true) :
    ',' ∉ t := fun h => (hexDigit_some_facts ',' (hall ',' h)).2.1 rfl

theorem removeSpaces_no_comma (r : List Char) (h : ',' ∉ r) : ',' ∉ removeSpaces r := by
  unfold removeSpaces
  intro hm
  exact h (List.mem_filter.1 hm).1

/-- The register list of a configuration string that is one token starting
with a run `t` of hexadecimal digits followed by a character `c` that is not
one: the value of the run when it is below `2^64`, nothing otherwise. -/
theorem parseRegisters_leading_hex (t : List Char) (c : Char) (r : List Char)
    (ht : isHexNumber t = true)
    (hd : hexDigit c = none) (hcomma : c ≠ ',') (hsp : c ≠ ' ')
    (hx : t = ['0'] → c ≠ 'x' ∧ c ≠ 'X') (hr : ',' ∉ r) :
    parseRegisters (t ++ c :: r) = if hexValue t < 2 ^ 64 then [hexValue t] else [] := by
  obtain ⟨hne, hall⟩ := (isHexNumber_iff t).1 ht
  have hrs : removeSpaces (t ++ c :: r) = t ++ c :: removeSpaces r := by
    have h1 : removeSpaces (t ++ c :: r) = removeSpaces t ++ removeSpaces (c :: r) := by
      unfold removeSpaces; rw [List.filter_append]
    rw [h1, removeSpaces_hex t hall]
    congr 1
    unfold removeSpaces
    rw [List.filter_cons_of_pos (by simp [hsp])]
  have hnc : ',' ∉ t ++ c :: removeSpaces r := by
    intro h
    rcases List.mem_append.1 h with h | h
    · exact no_comma_hex t hall h
    · rcases List.mem_cons.1 h with h | h
      · exact hcomma h.symm
      · exact removeSpaces_no_comma r hr h
  rw [parseRegisters_eq, hrs, splitComma_no_comma _ hnc]
  have := stoul16_leading_hex t (c :: removeSpaces r) hne hall
    (by intro c' r' h; cases h; exact ⟨hd, hx⟩)
  by_cases hv : hexValue t < 2 ^ 64
  · rw [if_pos hv] at this ⊢
    simp [this]
  · rw [if_neg hv] at this ⊢
    simp [this]

/-- The register list of a configuration string that is one hexadecimal
number: its value when it is below `2^64`, nothing otherwise. -/
theorem parseRegisters_hex (t : List Char) (ht : isHexNumber t = true) :
    parseRegisters t = if hexValue t < 2 ^ 64 then [hexValue t] else [] := by
  obtain ⟨hne, hall⟩ := (isHexNumber_iff t).1 ht
  rw [parseRegisters_eq, removeSpaces_hex t hall, splitComma_no_comma _ (no_comma_hex t hall)]
  have := stoul16_leading_hex t [] hne hall (by intro c' r' h; cases h)
  rw [List.append_nil] at this
  by_cases hv : hexValue t < 2 ^ 64
  · rw [if_pos hv] at this ⊢
    simp [this]
  · rw [if_neg hv] at this ⊢
    simp [this]

/-- The register list of a configuration string that is one token whose first
character cannot start a number. -/
theorem parseRegisters_no_digit (c : Char) (r : List Char) (hd : hexDigit c = none)
    (hp : c ≠ '+') (hm : c ≠ '-') (hs : isSpaceChar c = false) (hcomma : c ≠ ',')
    (hr : ',' ∉ r) : parseRegisters (c :: r) = [] := by
  have hsp : c ≠ ' ' := by rintro rfl; exact absurd hs (by decide)
  have hrs : removeSpaces (c :: r) = c :: removeSpaces r := by
    unfold removeSpaces
    rw [List.filter_cons_of_pos (by simp [hsp])]
  have hnc : ',' ∉ c :: removeSpaces r := by
    intro h
    rcases List.mem_cons.1 h with h | h
    · exact hcomma h.symm
    · exact removeSpaces_no_comma r hr h
  rw [parseRegisters_eq, hrs, splitComma_no_comma _ hnc]
  simp [stoul16_no_digit c (removeSpaces r) hd hp hm hs]

theorem parseRegisters_append_comma (s₁ s₂ : List Char) :
    parseRegisters (s₁ ++ ',' :: s₂) = parseRegisters s₁ ++ parseRegisters s₂ := by
  rw [parseRegisters_eq, parseRegisters_eq, parseRegisters_eq, removeSpaces_append_comma,
    splitComma_append_comma, List.filterMap_append]

theorem parseRegisters_removeSpaces (s : List Char) :
    parseRegisters s = parseRegisters (removeSpaces s) := by
  rw [parseRegisters_eq, parseRegisters_eq, removeSpaces_idem]

/-- C4 fails as stated: the token `1g` is not a hexadecimal number, so the claim
drops it, but `stoul` stops at the first character that is not a digit and
the parse loop stores the value 1. -/
theorem parseRegisters_counterexample :
    isHexNumber "1g".toList = false ∧
    specRegisters "1g".toList = [] ∧
    parseRegisters "1g".toList = [1] ∧
    parseRegisters "1g".toList ≠ specRegisters "1g".toList := by
  decide

/-- C4 (amended): the register list of a configuration string is built token by
token, in order and with duplicates kept: the empty string gives the empty
list; spaces are removed first; the list for `s₁,s₂` is the list for `s₁`
followed by the list for `s₂`, so a dropped token changes nothing about the
others; a token that is a hexadecimal number contributes its value when that
value is below `2^64` and is dropped otherwise; a token that starts with a
hexadecimal number followed by a character that is not a hexadecimal digit
(nor the `x` of a `0x` marker) contributes the value of that leading number
when it is below `2^64` and is dropped otherwise; a token whose first
character is neither a hexadecimal digit, a sign nor white space is
dropped. -/
theorem parseRegisters_tokens :
    parseRegisters [] = [] ∧
    (∀ s, parseRegisters s = parseRegisters (removeSpaces s)) ∧
    (∀ s₁ s₂, parseRegisters (s₁ ++ ',' :: s₂) = parseRegisters s₁ ++ parseRegisters s₂) ∧
    (∀ t, isHexNumber t = true →
      parseRegisters t = if hexValue t < 2 ^ 64 then [hexValue t] else []) ∧
    (∀ t c r, isHexNumber t = true → hexDigit c = none →
      c ≠ ',' → c ≠ ' ' → (t = ['0'] → c ≠ 'x' ∧ c ≠ 'X') → ',' ∉ r →
      parseRegisters (t ++ c :: r) = if hexValue t < 2 ^ 64 then [hexValue t] else []) ∧
    (∀ c r, hexDigit c = none → c ≠ '+' → c ≠ '-' → isSpaceChar c = false →
      c ≠ ',' → ',' ∉ r → parseRegisters (c :: r) = []) :=
  ⟨by decide, parseRegisters_removeSpaces, parseRegisters_append_comma, parseRegisters_hex,
   parseRegisters_leading_hex, parseRegisters_no_digit⟩

/-- C4 (amended) on the strings `zz,10`, `1a,2b, 3c`, `1g`, and on the 17-digit
tokens `10000000000000000` and `10000000000000000g`, whose value `2^64` does
not fit and which are dropped. -/
theorem parseRegisters_tokens_witness :
    parseRegisters ("zz".toList ++ ',' :: "10".toList) = [0x10] ∧
    parseRegisters (removeSpaces "1a,2b, 3c".toList) = [0x1a, 0x2b, 0x3c] ∧
    parseRegisters "1a,2b, 3c".toList = [0x1a, 0x2b, 0x3c] ∧
    parseRegisters ("1".toList ++ 'g' :: []) = [1] ∧
    parseRegisters "10000000000000000".toList = [] ∧
    parseRegisters ("10000000000000000".toList ++ 'g' :: []) = [] := by
  refine ⟨?_, ?_, ?_, ?_, ?_, ?_⟩
  · have h1 : parseRegisters "zz".toList = [] :=
      parseRegisters_tokens.2.2.2.2.2 'z' ['z'] (by decide) (by decide) (by decide) (by decide)
        (by decide) (by decide)
    have h2 := parseRegisters_tokens.2.2.2.1 "10".toList (by decide)
    rw [parseRegisters_tokens.2.2.1, h1, h2]
    decide
  · decide
  · rw [parseRegisters_tokens.2.1]
    decide
  · rw [parseRegisters_tokens.2.2.2.2.1 "1".toList 'g' [] (by decide) (by decide) (by decide)
      (by decide) (by decide) (by decide)]
    decide
  · rw [parseRegisters_tokens.2.2.2.1 "10000000000000000".toList (by decide)]
    decide
  · rw [parseRegisters_tokens.2.2.2.2.1 "10000000000000000".toList 'g' [] (by decide)
      (by decide) (by decide) (by decide) (by decide) (by decide)]
    decide

end XRT
